import Mathlib

/-!
Verification of the StateMachineFactory core of `src/js/internalgel.js`.

The factory keeps a mutable map `transitions : name -> (fromState -> (endState, action))`
plus, implicitly, the insertion-ordered set of keys of that map (enumerated by
`for (var name in transitions)` at build time).  We embed the builder as a pair of a
functional two-level table and the ordered list of registered names.  Transition
actions are arbitrary callables in the source; we model an action as a labelled
program (`Action`) whose body may read the current state of the machine and may
reentrantly invoke further transitions, and dispatch produces an event log so that
"the action was invoked exactly once with exactly these arguments" is observable.
Argument payloads are opaque to the runtime; we model them as natural numbers.
-/

namespace InternalGEL

/-- One step a body of an action can take when invoked: reentrantly invoke a
transition callable of the same runtime, or read `stateMachine.currentState`. -/
inductive Act : Type where
  | invoke (name : String) (args : List Nat)
  | readState
deriving DecidableEq, Repr

/-- A transition action: an external callable, labelled by an identity `id`
(so invocations of distinct registered callbacks are distinguishable in the
event log) with a body of observable steps. -/
structure Action where
  id : Nat
  body : List Act
deriving DecidableEq, Repr

/-- A cell of the transition table: the object with fields endState and action
stored by `addPendingTransitions` (src/js/internalgel.js lines 30-33). -/
structure Entry where
  endState : String
  action : Action
deriving DecidableEq, Repr

/-- The inner map `transitions[name]` : fromState to entry. -/
abbrev InnerMap := String → Option Entry

/-- The two-level table `transitions` : name to inner map.  `some` means the
key is present (the source stores a JavaScript array there, which is truthy
even when empty). -/
abbrev TableFun := String → Option InnerMap

/-- The builder state of one `StateMachineFactory()` instance: the `transitions`
map together with its insertion-ordered key list (the order `for..in` visits at
build time). -/
structure Builder where
  table : TableFun
  names : List String

/-- A fresh factory: `var transitions = []` (src line 11). -/
def emptyBuilder : Builder := { table := fun _ => none, names := [] }

/-- `transitions[name]` is absent: the inner map with no entries. -/
def emptyInner : InnerMap := fun _ => none

/-- `transitions[name][initialStates[i]] = (endState, action)` (src lines 30-33):
overwrite one cell of an inner map. -/
def setCell (m : InnerMap) (s endState : String) (a : Action) : InnerMap :=
  fun q => if q = s then some { endState := endState, action := a } else m q

/-- The inner loop of `addPendingTransitions` (src lines 29-34): write the same
`(endState, action)` cell for every state in `initialStates`. -/
def setCells (m : InnerMap) (initialStates : List String) (endState : String) (a : Action) : InnerMap :=
  initialStates.foldl (fun acc s => setCell acc s endState a) m

/-- The body of the outer loop of `addPendingTransitions` (src lines 24-35) for a
single `name`: create `transitions[name]` if absent (recording the new key), then
run the inner loop over `initialStates`. -/
def regName (b : Builder) (name : String) (initialStates : List String) (endState : String) (a : Action) : Builder :=
  let inner := match b.table name with
    | some m => m
    | none => emptyInner
  { table := fun q => if q = name then some (setCells inner initialStates endState a) else b.table q,
    names := if (b.table name).isSome then b.names else b.names ++ [name] }

/-- `addPendingTransitions(names, initialStates, endState, callback)`
(src lines 23-36). -/
def addPendingTransitions (b : Builder) (names initialStates : List String) (endState : String) (callback : Action) : Builder :=
  names.foldl (fun acc name => regName acc name initialStates endState callback) b

/-- `setTransition(name, initialState, endState, callback)` (src lines 49-51):
the singleton-lists form of `addPendingTransitions`. -/
def setTransition (b : Builder) (name initialState endState : String) (callback : Action) : Builder :=
  addPendingTransitions b [name] [initialState] endState callback

/-- `setTransitions` (src line 63) is `addPendingTransitions` itself. -/
def setTransitions (b : Builder) (names initialStates : List String) (endState : String) (callback : Action) : Builder :=
  addPendingTransitions b names initialStates endState callback

/-- An observable event of a dispatch: a registered callback was invoked with an
argument list, or a body of an action read `stateMachine.currentState`. -/
inductive Event : Type where
  | called (id : Nat) (args : List Nat)
  | observed (state : String)
deriving DecidableEq, Repr

/-- The guarded lookup `transitions[name] && transitions[name][state]`
(src line 15). -/
def lookupT (T : TableFun) (name state : String) : Option Entry :=
  match T name with
  | some inner => inner state
  | none => none

/-- Run an action body sequentially from a current state, given the semantics
`step` of a reentrant transition call; returns the final current state and the
event log of the body. -/
def runBody (step : String → String → List Nat → String × List Event) :
    String → List Act → String × List Event
  | st, [] => (st, [])
  | st, Act.readState :: rest =>
    let r := runBody step st rest
    (r.1, Event.observed st :: r.2)
  | st, Act.invoke n args :: rest =>
    let r1 := step st n args
    let r2 := runBody step r1.1 rest
    (r2.1, r1.2 ++ r2.2)

/-- The out-of-fuel semantics: no call happens at all. -/
def noCall : String → String → List Nat → String × List Event := fun st _ _ => (st, [])

/-- The dispatch closure `newTransition` (src lines 13-21), fuel-indexed to bound
reentrant nesting.  `ns` is the set of names that received a callable at build
time; the membership guard only keeps the function total — a name outside `ns`
has no property on the built object at all, and invoking it is modeled as an
error by `callOn`, so no claim is stated through the else branch of the guard.
On a table hit the current state is assigned the endState of the entry (src line
17) and only then is the body of the action run (src line 18), with the call
event recorded and the exact argument list forwarded verbatim. -/
def dispatchFuel (T : TableFun) (ns : List String) : Nat → String → String → List Nat → String × List Event
  | 0 => noCall
  | fuel+1 => fun st n args =>
    if n ∈ ns then
      match lookupT T n st with
      | some tr =>
        let r := runBody (dispatchFuel T ns fuel) tr.endState tr.action.body
        (r.1, Event.called tr.action.id args :: r.2)
      | none => (st, [])
    else (st, [])

/-- A built state machine, abstracted as a record: its mutable `currentState`
and the names for which `build` generated a callable (src lines 73-81). -/
structure StateMachine where
  currentState : String
  names : List String
deriving DecidableEq, Repr

/-- `build(initialState)` (src lines 73-81): initial current state plus one
callable per key of `transitions` at build time. -/
def build (b : Builder) (initialState : String) : StateMachine :=
  { currentState := initialState, names := b.names }

/-- Invoking `stateMachine[name](...args)` on a built machine, against the table
`T` live at the moment of the call (the closures of src lines 14-20 read the
transitions variable of the factory at call time, not a copy). -/
def invokeOn (T : TableFun) (fuel : Nat) (m : StateMachine) (name : String) (args : List Nat) : StateMachine × List Event :=
  let r := dispatchFuel T m.names fuel m.currentState name args
  ({ currentState := r.1, names := m.names }, r.2)

/-- The full property access and call `stateMachine[name](...args)`: for a name
that received a generated callable at build time the closure runs; for any other
key the property is undefined and calling it throws a TypeError, modeled as
`none` (an error, not a dispatch). -/
def callOn (T : TableFun) (fuel : Nat) (m : StateMachine) (name : String) (args : List Nat) :
    Option (StateMachine × List Event) :=
  if name ∈ m.names then some (invokeOn T fuel m name args) else none

/-- A field of the built JavaScript object: the `currentState` data property or a
generated transition callable. -/
inductive RField : Type where
  | stateVal (s : String)
  | callableFor (name : String)
deriving DecidableEq, Repr

/-- The built object itself, as a string-keyed map (src lines 74-80): the literal
with the single field currentState = initialState followed by `stateMachine[name] = newTransition(...)`
for every key of `transitions` — a `name` equal to the string `currentState`
overwrites the data property. -/
def buildObj (b : Builder) (initialState : String) : String → Option RField :=
  fun k =>
    if k ∈ b.names then some (RField.callableFor k)
    else if k = "currentState" then some (RField.stateVal initialState) else none

/-- A heap of built machines: each `build` call allocates a fresh object. -/
structure World where
  heap : Nat → StateMachine
  next : Nat

/-- Allocate the machine of one `build` call at a fresh address. -/
def buildInWorld (w : World) (b : Builder) (initialState : String) : World × Nat :=
  ({ heap := fun i => if i = w.next then build b initialState else w.heap i,
     next := w.next + 1 }, w.next)

/-- Invoke a transition callable of the machine at address `i`: the generated
closure writes only its own captured `stateMachine` object (src line 17). -/
def invokeInWorld (T : TableFun) (w : World) (i fuel : Nat) (name : String) (args : List Nat) : World :=
  let m := w.heap i
  let r := dispatchFuel T m.names fuel m.currentState name args
  { w with heap := fun j => if j = i then { currentState := r.1, names := m.names } else w.heap j }

/-- A record of one bulk-registration call made on a builder. -/
structure RegCall where
  names : List String
  initialStates : List String
  endState : String
  callback : Action

/-- Replay a history of registration calls on a fresh factory. -/
def applyCalls (calls : List RegCall) : Builder :=
  calls.foldl (fun b c => addPendingTransitions b c.names c.initialStates c.endState c.callback) emptyBuilder

/-- Event-log filter: the callback-invocation events. -/
def isCalled : Event → Bool
  | Event.called _ _ => true
  | Event.observed _ => false

/-- The callback-invocation events of a log. -/
def calledEvents (evs : List Event) : List Event := evs.filter isCalled

/-- An action body with no reentrant transition calls (an opaque external
callback as far as the machine is concerned). -/
def noReentry (acts : List Act) : Bool :=
  acts.all fun a => match a with
    | Act.invoke _ _ => false
    | Act.readState => true

/-- The well-formedness the factory maintains: every present key of `transitions`
is in the recorded key list. -/
def BuilderInv (b : Builder) : Prop :=
  ∀ q, (b.table q).isSome = true → q ∈ b.names

/-- A concrete opaque action used in concrete instances. -/
def actPure : Action := { id := 7, body := [] }

/-- A concrete action that reads the current state when invoked. -/
def actRead : Action := { id := 8, body := [Act.readState] }

/-- A concrete builder with the single entry (go, A) to (B, actPure). -/
def bHit : Builder := setTransition emptyBuilder "go" "A" "B" actPure

/-- The machine built from `bHit` starting at A. -/
def mHit : StateMachine := build bHit "A"

/-- A concrete builder whose single entry carries the state-reading action. -/
def bRead : Builder := setTransition emptyBuilder "go" "A" "B" actRead

/-- The machine built from `bRead` starting at A. -/
def mRead : StateMachine := build bRead "A"

theorem runBody_noReentry (step : String → String → List Nat → String × List Event)
    (st : String) (acts : List Act) (h : noReentry acts = true) :
    (runBody step st acts).1 = st ∧ calledEvents (runBody step st acts).2 = [] := by
  induction acts with
  | nil => exact ⟨rfl, rfl⟩
  | cons a rest ih =>
    cases a with
    | invoke n args => simp [noReentry] at h
    | readState =>
      have h2 : noReentry rest = true := by
        simpa [noReentry] using h
      obtain ⟨h1, hevs⟩ := ih h2
      refine ⟨h1, ?_⟩
      simpa [runBody, calledEvents, isCalled] using hevs

/-- C1: for every table entry (n, s) to (t, a) whose action is an opaque external
callback (no reentrant transition calls), if the currentState of the machine is s then
invoking its callable for n with argument list args sets currentState
to t and invokes a exactly once, with exactly the arguments args, forwarded
verbatim, and invokes no other action. -/
theorem transition_hit (b : Builder) (m : StateMachine) (fuel : Nat)
    (n s t : String) (a : Action) (args : List Nat)
    (hs : m.currentState = s)
    (hT : lookupT b.table n s = some { endState := t, action := a })
    (hn : n ∈ m.names)
    (ha : noReentry a.body = true) :
    ((invokeOn b.table (fuel+1) m n args).1).currentState = t ∧
    calledEvents ((invokeOn b.table (fuel+1) m n args).2) = [Event.called a.id args] := by
  obtain ⟨h1, h2⟩ := runBody_noReentry (dispatchFuel b.table m.names fuel) t a.body ha
  constructor
  · simp [invokeOn, dispatchFuel, hs, hT, hn, h1]
  · simp only [invokeOn, dispatchFuel, hs, hn, if_pos, hT]
    simpa [calledEvents, isCalled] using h2

/-- C1 witness: the concrete entry (go, A) to (B, actPure), invoked at state A. -/
theorem transition_hit_witness :
    ((invokeOn bHit.table 1 mHit "go" []).1).currentState = "B" ∧
    calledEvents ((invokeOn bHit.table 1 mHit "go" []).2) = [Event.called 7 []] :=
  transition_hit bHit mHit 0 "go" "A" "B" actPure []
    (by decide) (by decide) (by decide) (by decide)

/-- C2: on a matched dispatch the currentState is assigned the endState of the entry
strictly before the body of the action runs: a body that synchronously reads the
current state observes the post-transition state t, and a body that reentrantly
invokes another transition dispatches that call from t, not from s. -/
theorem state_before_action (b : Builder) (m : StateMachine) (fuel : Nat)
    (n s t : String) (a : Action) (args : List Nat)
    (hs : m.currentState = s)
    (hT : lookupT b.table n s = some { endState := t, action := a })
    (hn : n ∈ m.names) :
    (∀ rest, a.body = Act.readState :: rest →
      ((invokeOn b.table (fuel+1) m n args).2).take 2 =
        [Event.called a.id args, Event.observed t]) ∧
    (∀ nm margs, a.body = [Act.invoke nm margs] →
      invokeOn b.table (fuel+1) m n args =
        ({ currentState := (dispatchFuel b.table m.names fuel t nm margs).1, names := m.names },
         Event.called a.id args :: (dispatchFuel b.table m.names fuel t nm margs).2)) := by
  constructor
  · intro rest hbody
    simp [invokeOn, dispatchFuel, hs, hT, hn, hbody, runBody]
  · intro nm margs hbody
    simp [invokeOn, dispatchFuel, hs, hT, hn, hbody, runBody]

/-- C2 witness: the concrete entry (go, A) to (B, actRead); the read the action performs of
the current state observes B, the post-transition state. -/
theorem state_before_action_witness :
    ((invokeOn bRead.table 1 mRead "go" [5]).2).take 2 =
      [Event.called 8 [5], Event.observed "B"] :=
  (state_before_action bRead mRead 0 "go" "A" "B" actRead [5]
    (by decide) (by decide) (by decide)).1 [] (by decide)

/-- C3: if the table has no entry for (n, s) then invoking the callable of the machine
for n while currentState is s leaves the machine unchanged and produces no
observable event at all: a silent no-op, never an error. -/
theorem transition_miss (b : Builder) (m : StateMachine) (fuel : Nat)
    (n s : String) (args : List Nat)
    (hs : m.currentState = s)
    (hT : lookupT b.table n s = none)
    (hn : n ∈ m.names) :
    invokeOn b.table fuel m n args = (m, []) := by
  cases fuel with
  | zero => rfl
  | succ fuel =>
    simp [invokeOn, dispatchFuel, hs, hT, hn]
    rw [← hs]

/-- C3 witness: the machine built from `bHit` at state B has no entry for
(go, B); invoking go there changes nothing. -/
theorem transition_miss_witness :
    invokeOn bHit.table 1 (build bHit "B") "go" [3] = (build bHit "B", []) :=
  transition_miss bHit (build bHit "B") 1 "go" "B" [3]
    (by decide) (by decide) (by decide)

theorem builderExt (b1 b2 : Builder) (ht : b1.table = b2.table)
    (hn : b1.names = b2.names) : b1 = b2 := by
  cases b1; cases b2; simp_all

theorem setTransition_eq_regName (b : Builder) (n s e : String) (a : Action) :
    setTransition b n s e a = regName b n [s] e a := rfl

theorem regName_eq_some (b : Builder) (name : String) (m : InnerMap) (ss : List String)
    (e : String) (a : Action) (h : b.table name = some m) :
    regName b name ss e a =
      { table := fun q => if q = name then some (setCells m ss e a) else b.table q,
        names := b.names } := by
  simp [regName, h]

theorem regName_eq_none (b : Builder) (name : String) (ss : List String)
    (e : String) (a : Action) (h : b.table name = none) :
    regName b name ss e a =
      { table := fun q => if q = name then some (setCells emptyInner ss e a) else b.table q,
        names := b.names ++ [name] } := by
  simp [regName, h]

theorem setCells_single_overwrite (m : InnerMap) (s t1 t2 : String) (a1 a2 : Action) :
    setCells (setCells m [s] t1 a1) [s] t2 a2 = setCells m [s] t2 a2 := by
  funext p
  by_cases hp : p = s <;> simp [setCells, setCell, hp]

/-- C4: registering (n, s) to (t1, a1) and then (n, s) to (t2, a2) yields a builder
state identical to registering only (n, s) to (t2, a2): the later registration
silently overwrites the earlier one, so each (name, fromState) pair holds at most
one entry and a1 is unreachable through that cell. -/
theorem last_write_wins (b : Builder) (n s t1 t2 : String) (a1 a2 : Action) :
    setTransition (setTransition b n s t1 a1) n s t2 a2 = setTransition b n s t2 a2 := by
  rw [setTransition_eq_regName, setTransition_eq_regName, setTransition_eq_regName]
  rcases hb : b.table n with _ | m
  · rw [regName_eq_none b n [s] t1 a1 hb, regName_eq_none b n [s] t2 a2 hb]
    rw [regName_eq_some _ n (setCells emptyInner [s] t1 a1) [s] t2 a2 (by simp)]
    apply builderExt
    · funext q
      by_cases hq : q = n
      · simp [hq, setCells_single_overwrite]
      · simp [hq]
    · simp
  · rw [regName_eq_some b n m [s] t1 a1 hb, regName_eq_some b n m [s] t2 a2 hb]
    rw [regName_eq_some _ n (setCells m [s] t1 a1) [s] t2 a2 (by simp)]
    apply builderExt
    · funext q
      by_cases hq : q = n
      · simp [hq, setCells_single_overwrite]
      · simp [hq]
    · simp

theorem singles_foldl_some (n e : String) (a : Action) :
    ∀ (ss : List String) (b : Builder) (m : InnerMap), b.table n = some m →
      ss.foldl (fun acc st => setTransition acc n st e a) b =
        { table := fun q => if q = n then some (setCells m ss e a) else b.table q,
          names := b.names } := by
  intro ss
  induction ss with
  | nil =>
    intro b m hm
    apply builderExt
    · funext q
      by_cases hq : q = n
      · subst hq; simpa [setCells] using hm
      · simp [hq]
    · rfl
  | cons s rest ih =>
    intro b m hm
    show rest.foldl _ (setTransition b n s e a) = _
    rw [setTransition_eq_regName, regName_eq_some b n m [s] e a hm]
    rw [ih _ (setCells m [s] e a) (by simp)]
    apply builderExt
    · funext q
      by_cases hq : q = n
      · subst hq; simp [setCells]
      · simp [hq]
    · rfl

theorem regName_eq_singles (n s : String) (rest : List String) (e : String) (a : Action)
    (b : Builder) :
    regName b n (s :: rest) e a =
      (s :: rest).foldl (fun acc st => setTransition acc n st e a) b := by
  rcases hb : b.table n with _ | m
  · rw [regName_eq_none b n (s :: rest) e a hb]
    show _ = rest.foldl _ (setTransition b n s e a)
    rw [setTransition_eq_regName, regName_eq_none b n [s] e a hb]
    rw [singles_foldl_some n e a rest _ (setCells emptyInner [s] e a) (by simp)]
    apply builderExt
    · funext q
      by_cases hq : q = n
      · subst hq; simp [setCells]
      · simp [hq]
    · rfl
  · rw [regName_eq_some b n m (s :: rest) e a hb,
        singles_foldl_some n e a (s :: rest) b m hb]

/-- C5 (amended): for a nonempty fromStates list, bulk registration produces
exactly the builder state of single registrations over every pair of the cross
product, in the nesting order of the source (names outer, fromStates inner); the
singleton bulk form coincides with the single form by definition. -/
theorem bulk_eq_singles (b : Builder) (ns : List String) (s : String) (rest : List String)
    (e : String) (a : Action) :
    addPendingTransitions b ns (s :: rest) e a =
      ns.foldl (fun acc n =>
        (s :: rest).foldl (fun acc2 st => setTransition acc2 n st e a) acc) b := by
  induction ns generalizing b with
  | nil => rfl
  | cons n tl ih =>
    show addPendingTransitions (regName b n (s :: rest) e a) tl (s :: rest) e a = _
    rw [ih (regName b n (s :: rest) e a)]
    rw [regName_eq_singles n s rest e a b]
    rfl

/-- C5 counterexample: with an empty fromStates list and a nonempty names list,
the bulk call still registers the name (creating its empty inner table and
recording the key for build), while the cross product of single registrations is
empty and leaves the builder untouched, so the two results differ. -/
theorem bulk_empty_states_counterexample :
    addPendingTransitions emptyBuilder ["go"] [] "B" actPure ≠
      ["go"].foldl (fun acc n =>
        ([] : List String).foldl (fun acc2 st => setTransition acc2 n st "B" actPure) acc)
        emptyBuilder := by
  intro h
  have hn := congrArg Builder.names h
  simp [addPendingTransitions, regName, emptyBuilder] at hn

/-- A concrete opaque action labelled 1. -/
def act1 : Action := { id := 1, body := [] }

/-- A concrete opaque action labelled 2. -/
def act2 : Action := { id := 2, body := [] }

/-- The builder state at the moment of a build: one entry (go, A) to (B, act1). -/
def bBefore : Builder := setTransition emptyBuilder "go" "A" "B" act1

/-- The machine built from `bBefore` at state A. -/
def rBefore : StateMachine := build bBefore "A"

/-- The builder state of the same factory after a post-build re-registration of
(go, A) to (C, act2). -/
def bAfter : Builder := setTransition bBefore "go" "A" "C" act2

/-- C6 counterexample: the machine built before the re-registration dispatches
go through the live table of the factory, reaching C and invoking action 2 — not the
behavior (B, action 1) prescribed by the table contents as of its build time, so
a post-build registration does affect the already-built machine. -/
theorem table_not_frozen_counterexample :
    invokeOn bAfter.table 1 rBefore "go" [] =
      ({ currentState := "C", names := ["go"] }, [Event.called 2 []]) ∧
    invokeOn bBefore.table 1 rBefore "go" [] =
      ({ currentState := "B", names := ["go"] }, [Event.called 1 []]) ∧
    invokeOn bAfter.table 1 rBefore "go" [] ≠ invokeOn bBefore.table 1 rBefore "go" [] := by
  exact ⟨by decide, by decide, by decide⟩

/-- C6 (amended): build freezes only the set of callables, not the table.  A
name with no table key at build time has no property on the already-built
machine, so invoking it is a TypeError under any later table state — an error,
not a dispatch.  And the callables that do exist read only the live table at
invocation time: two machines built at the same point of a registration history
(equal key sets) behave identically under the same live table, whatever either
build-time table contained, so a post-build registration under a build-time name
changes the dispatch behavior of the already-built machine. -/
theorem build_freezes_only_callables (b1 b2 : Builder) (T : TableFun) (init n : String)
    (fuel : Nat) (args : List Nat) (hn : b1.names = b2.names) :
    (n ∉ (build b1 init).names → callOn T fuel (build b1 init) n args = none) ∧
    callOn T fuel (build b1 init) n args = callOn T fuel (build b2 init) n args := by
  constructor
  · intro h
    simp [callOn, h]
  · have hb : build b1 init = build b2 init := by simp [build, hn]
    rw [hb]

/-- C6 witness: jump was never registered before the build, so calling it on the
built machine is the TypeError, even against the later table of `bAfter`; and the
machine built from `bBefore` runs go exactly as one built from `bAfter` does
under the live `bAfter` table. -/
theorem build_freezes_only_callables_witness :
    callOn bAfter.table 1 (build bBefore "A") "jump" [] = none ∧
    callOn bAfter.table 1 (build bBefore "A") "go" [] =
      callOn bAfter.table 1 (build bAfter "A") "go" [] := by
  obtain ⟨h1, _⟩ :=
    build_freezes_only_callables bBefore bAfter bAfter.table "A" "jump" 1 [] (by decide)
  obtain ⟨_, h2⟩ :=
    build_freezes_only_callables bBefore bAfter bAfter.table "A" "go" 1 [] (by decide)
  exact ⟨h1 (by decide), h2⟩

theorem lookupT_regName_nilStates (b : Builder) (name e : String) (a : Action)
    (n st : String) :
    lookupT (regName b name [] e a).table n st = lookupT b.table n st := by
  rcases hb : b.table name with _ | m
  · rw [regName_eq_none b name [] e a hb]
    by_cases hq : n = name
    · subst hq; simp [lookupT, hb, setCells, emptyInner]
    · simp [lookupT, hq]
  · rw [regName_eq_some b name m [] e a hb]
    by_cases hq : n = name
    · subst hq; simp [lookupT, hb, setCells]
    · simp [lookupT, hq]

theorem lookupT_addPending_nilStates (e : String) (a : Action) :
    ∀ (ns : List String) (b : Builder) (n st : String),
      lookupT (addPendingTransitions b ns [] e a).table n st = lookupT b.table n st := by
  intro ns
  induction ns with
  | nil => intro b n st; rfl
  | cons nm rest ih =>
    intro b n st
    show lookupT (addPendingTransitions (regName b nm [] e a) rest [] e a).table n st = _
    rw [ih (regName b nm [] e a) n st]
    exact lookupT_regName_nilStates b nm e a n st

theorem builderInv_regName (b : Builder) (name : String) (ss : List String) (e : String)
    (a : Action) (hb : BuilderInv b) : BuilderInv (regName b name ss e a) := by
  rcases hbt : b.table name with _ | m
  · rw [regName_eq_none b name ss e a hbt]
    intro q hq
    by_cases h : q = name
    · subst h; simp
    · simp only [h] at hq
      simp [h] at hq
      exact List.mem_append_left _ (hb q hq)
  · rw [regName_eq_some b name m ss e a hbt]
    intro q hq
    by_cases h : q = name
    · subst h
      exact hb q (by simp [hbt])
    · simp [h] at hq
      exact hb q hq

theorem mem_names_regName (b : Builder) (name : String) (ss : List String) (e : String)
    (a : Action) (hb : BuilderInv b) (n : String) :
    n ∈ (regName b name ss e a).names ↔ n ∈ b.names ∨ n = name := by
  rcases hbt : b.table name with _ | m
  · rw [regName_eq_none b name ss e a hbt]
    simp
  · rw [regName_eq_some b name m ss e a hbt]
    constructor
    · exact Or.inl
    · rintro (h | rfl)
      · exact h
      · exact hb n (by simp [hbt])

theorem builderInv_addPending (ss : List String) (e : String) (a : Action) :
    ∀ (ns : List String) (b : Builder), BuilderInv b →
      BuilderInv (addPendingTransitions b ns ss e a) := by
  intro ns
  induction ns with
  | nil => exact fun b hb => hb
  | cons nm rest ih => exact fun b hb => ih _ (builderInv_regName b nm ss e a hb)

theorem mem_names_addPending_iff (ss : List String) (e : String) (a : Action) :
    ∀ (ns : List String) (b : Builder), BuilderInv b → ∀ n,
      (n ∈ (addPendingTransitions b ns ss e a).names ↔ n ∈ b.names ∨ n ∈ ns) := by
  intro ns
  induction ns with
  | nil =>
    intro b hb n
    simp [addPendingTransitions]
  | cons nm rest ih =>
    intro b hb n
    show n ∈ (addPendingTransitions (regName b nm ss e a) rest ss e a).names ↔ _
    rw [ih _ (builderInv_regName b nm ss e a hb) n,
        mem_names_regName b nm ss e a hb n]
    simp [List.mem_cons, or_assoc]

theorem buildObj_callable_iff (b : Builder) (init k : String) :
    buildObj b init k = some (RField.callableFor k) ↔ k ∈ b.names := by
  by_cases hk : k ∈ b.names
  · simp [buildObj, hk]
  · simp only [buildObj, hk, if_false]
    by_cases hc : k = "currentState" <;> simp [hc, hk]

theorem mem_names_foldl_calls :
    ∀ (calls : List RegCall) (b : Builder), BuilderInv b → ∀ n,
      (n ∈ (calls.foldl (fun acc c =>
          addPendingTransitions acc c.names c.initialStates c.endState c.callback) b).names ↔
        n ∈ b.names ∨ ∃ c ∈ calls, n ∈ c.names) := by
  intro calls
  induction calls with
  | nil => intro b hb n; simp
  | cons c rest ih =>
    intro b hb n
    show n ∈ (rest.foldl _
        (addPendingTransitions b c.names c.initialStates c.endState c.callback)).names ↔ _
    rw [ih _ (builderInv_addPending c.initialStates c.endState c.callback c.names b hb) n,
        mem_names_addPending_iff c.initialStates c.endState c.callback c.names b hb n]
    simp [or_assoc]

theorem builderInv_empty : BuilderInv emptyBuilder := by
  intro q hq
  simp [emptyBuilder] at hq

/-- A builder that registers a transition under the name currentState, to be
built with initial state A. -/
def bCS7 : Builder := setTransition emptyBuilder "currentState" "A" "B" act1

/-- C7 counterexample: with a transition registered under the name currentState,
the built object violates the unconditional clause that its currentState key
holds the initial state — the build loop has overwritten the key with the
generated callable. -/
theorem build_initialState_clause_counterexample :
    buildObj bCS7 "A" "currentState" ≠ some (RField.stateVal "A") := by
  decide

/-- C7 (amended): provided no transition was registered under the name
currentState, build(initialState) returns an object whose currentState key holds
initialState; and in every case the object holds a generated callable at exactly
the distinct names ever passed to a registration call before the build —
including names with no entry for initialState or for any state — and at no
other key, so dispatching an unregistered name is impossible by construction. -/
theorem buildObj_build_contract (calls : List RegCall) (init k : String) :
    ("currentState" ∉ (applyCalls calls).names →
      buildObj (applyCalls calls) init "currentState" = some (RField.stateVal init)) ∧
    (buildObj (applyCalls calls) init k = some (RField.callableFor k) ↔
      ∃ c ∈ calls, k ∈ c.names) := by
  have hmem := mem_names_foldl_calls calls emptyBuilder builderInv_empty k
  have hm2 : k ∈ (applyCalls calls).names ↔ ∃ c ∈ calls, k ∈ c.names := by
    simpa [applyCalls, emptyBuilder] using hmem
  constructor
  · intro h
    simp [buildObj, h]
  · exact (buildObj_callable_iff (applyCalls calls) init k).trans hm2

/-- A registration history of one ordinary call: go from A to B with act1. -/
def callGo : RegCall :=
  { names := ["go"], initialStates := ["A"], endState := "B", callback := act1 }

/-- C7 witness: for the one-call history registering go — which never passes the
name currentState — the built object keeps the initial state under its
currentState key and holds the generated callable at go. -/
theorem buildObj_build_contract_witness :
    buildObj (applyCalls [callGo]) "A" "currentState" = some (RField.stateVal "A") ∧
    buildObj (applyCalls [callGo]) "A" "go" = some (RField.callableFor "go") := by
  obtain ⟨h1, h2⟩ := buildObj_build_contract [callGo] "A" "go"
  exact ⟨h1 (by decide), h2.mpr ⟨callGo, List.mem_cons_self callGo [], by decide⟩⟩

/-- C8 counterexample: a bulk registration with nonempty names and an empty
fromStates list is not a no-op: it registers the name hop, so a subsequent build
exposes a callable for hop that the build of the untouched builder lacks. -/
theorem empty_states_registers_name_counterexample :
    build (setTransitions emptyBuilder ["hop"] [] "B" actPure) "A" ≠
      build emptyBuilder "A" := by
  decide

/-- C8 (amended): a bulk call with an empty names list has no effect at all; a
bulk call with an empty fromStates list leaves every table lookup unchanged (so
no dispatch ever finds a new entry), but it is not effect-free: every passed
name is registered, and subsequent builds expose a callable for it. -/
theorem empty_inputs_effect (b : Builder) (ns ss : List String) (e : String) (a : Action)
    (hb : BuilderInv b) :
    (addPendingTransitions b [] ss e a = b) ∧
    (∀ n st, lookupT (addPendingTransitions b ns [] e a).table n st = lookupT b.table n st) ∧
    (∀ n, n ∈ ns → n ∈ (addPendingTransitions b ns [] e a).names) :=
  ⟨rfl, fun n st => lookupT_addPending_nilStates e a ns b n st,
   fun n hn => (mem_names_addPending_iff [] e a ns b hb n).mpr (Or.inr hn)⟩

/-- C8 witness: on a fresh factory, the empty-names call is the identity, the
empty-fromStates call for hop changes no lookup, yet hop ends up registered. -/
theorem empty_inputs_effect_witness :
    (addPendingTransitions emptyBuilder [] ["A"] "B" actPure = emptyBuilder) ∧
    lookupT (addPendingTransitions emptyBuilder ["hop"] [] "B" actPure).table "hop" "A" =
      lookupT emptyBuilder.table "hop" "A" ∧
    "hop" ∈ (addPendingTransitions emptyBuilder ["hop"] [] "B" actPure).names := by
  obtain ⟨h1, h2, h3⟩ :=
    empty_inputs_effect emptyBuilder ["hop"] ["A"] "B" actPure builderInv_empty
  exact ⟨h1, h2 "hop" "A", h3 "hop" (by decide)⟩

/-- C9: two machines built by successive build calls on one factory live at
distinct heap addresses, and a transition callable writes only the machine it
captured: invoking any transition of either machine leaves the other machine —
in particular its currentState — unchanged, in both directions. -/
theorem runtimes_independent (w0 : World) (b : Builder) (s1 s2 n1 n2 : String)
    (fuel1 fuel2 : Nat) (args1 args2 : List Nat) :
    ((invokeInWorld b.table (buildInWorld (buildInWorld w0 b s1).1 b s2).1
        (buildInWorld w0 b s1).2 fuel1 n1 args1).heap
          (buildInWorld (buildInWorld w0 b s1).1 b s2).2 =
      (buildInWorld (buildInWorld w0 b s1).1 b s2).1.heap
        (buildInWorld (buildInWorld w0 b s1).1 b s2).2) ∧
    ((invokeInWorld b.table (buildInWorld (buildInWorld w0 b s1).1 b s2).1
        (buildInWorld (buildInWorld w0 b s1).1 b s2).2 fuel2 n2 args2).heap
          (buildInWorld w0 b s1).2 =
      (buildInWorld (buildInWorld w0 b s1).1 b s2).1.heap (buildInWorld w0 b s1).2) := by
  constructor
  · simp [buildInWorld, invokeInWorld]
  · simp [buildInWorld, invokeInWorld]

/-- C10: if a transition was registered under the name currentState, the build
loop overwrites the currentState field of the object with the generated callable: the
currentState key of the returned object holds a callable, not the initial state. -/
theorem currentState_key_overwritten (b : Builder) (init : String)
    (h : "currentState" ∈ b.names) :
    buildObj b init "currentState" = some (RField.callableFor "currentState") ∧
    buildObj b init "currentState" ≠ some (RField.stateVal init) := by
  constructor
  · simp [buildObj, h]
  · simp [buildObj, h]

/-- A builder that registers a transition under the name currentState. -/
def bCS : Builder := setTransition emptyBuilder "currentState" "empty" "full" actPure

/-- C10 witness: building `bCS` at the state empty yields an object whose
currentState key holds the generated callable rather than the initial state. -/
theorem currentState_key_overwritten_witness :
    buildObj bCS "empty" "currentState" = some (RField.callableFor "currentState") ∧
    buildObj bCS "empty" "currentState" ≠ some (RField.stateVal "empty") :=
  currentState_key_overwritten bCS "empty" (by decide)

end InternalGEL
